import Mathlib

/-
Formal model of `tracked_point.py` (kalman-tracker): a 2D constant-velocity
Kalman point tracker with a greedy per-frame association engine.

Numeric modelling: stored coordinates, filter matrices and thresholds are
exact rationals (every Python float is a rational); Euclidean norms and the
accumulated coast distance are real numbers (`Real.sqrt` of rationals).
The `filterpy` KalmanFilter `predict`/`update` routines and
`Q_discrete_white_noise` are external library primitives not part of the
repository source; they are modelled from the specification (section 4.1),
while all model matrices (F, H, Q, R) are taken from
`point_2d_kalman_filter` in the source.
-/

namespace KalmanTracker

/-- An observation is a numeric vector of length at least 2 whose first two
components are the (x, y) position; extra components are carried along.
Out-of-range accesses use `List.getD` with default 0; the default is never
consulted for the length-at-least-2 vectors the system works with. -/
abbrev Obs := List ℚ

/-- Euclidean norm of a 2D displacement with rational components, as computed
by `numpy.linalg.norm` on the difference vector. -/
noncomputable def vnorm (dx dy : ℚ) : ℝ :=
  Real.sqrt ((dx : ℝ) ^ 2 + (dy : ℝ) ^ 2)

/-- The Kalman filter state owned by one track: state mean (a 4x1 column),
covariance, and the fixed model matrices, mirroring the attributes set on the
`filterpy.kalman.KalmanFilter` instance in `point_2d_kalman_filter`. -/
structure KalmanFilter where
  x : Matrix (Fin 4) (Fin 1) ℚ
  P : Matrix (Fin 4) (Fin 4) ℚ
  F : Matrix (Fin 4) (Fin 4) ℚ
  H : Matrix (Fin 2) (Fin 4) ℚ
  R : Matrix (Fin 2) (Fin 2) ℚ
  Q : Matrix (Fin 4) (Fin 4) ℚ
deriving DecidableEq

/-- State transition matrix for state (x, vx, y, vy) with unit time step:
position advances by velocity, velocity unchanged (source lines 37-40). -/
def kfF : Matrix (Fin 4) (Fin 4) ℚ :=
  !![1, 1, 0, 0; 0, 1, 0, 0; 0, 0, 1, 1; 0, 0, 0, 1]

/-- Measurement matrix projecting the state to the observed (x, y)
(source lines 43-44). -/
def kfH : Matrix (Fin 2) (Fin 4) ℚ :=
  !![1, 0, 0, 0; 0, 0, 1, 0]

/-- Modelled from the spec: `filterpy.common.Q_discrete_white_noise` with
`dim=2, dt=1` is not in the repository source; section 4.1 describes the
process noise as a discretized constant-velocity noise block per axis, which
for unit time step is this matrix scaled by the variance `v`. -/
def qBlock (v : ℚ) : Matrix (Fin 2) (Fin 2) ℚ :=
  v • !![1/4, 1/2; 1/2, 1]

/-- The 4x4 process noise covariance: `block_diag(q, q)` with one
`qBlock` per axis, matching the (x, vx, y, vy) state ordering
(source line 51). -/
def kfQ (v : ℚ) : Matrix (Fin 4) (Fin 4) ℚ :=
  !![v/4, v/2, 0, 0;
     v/2, v,   0, 0;
     0,   0,   v/4, v/2;
     0,   0,   v/2, v]

/-- Source `point_2d_kalman_filter(initial_state, Q_std, R_std)`: builds the filter
with mean from the initial state, covariance 500 * I, the constant-velocity
transition matrix, the position measurement matrix, measurement noise
R_std^2 * I and the discretized process noise (source lines 11-53). -/
def point_2d_kalman_filter (initial_state : Fin 4 → ℚ) (Q_std R_std : ℚ) :
    KalmanFilter where
  x := Matrix.of fun i _ => initial_state i
  P := (500 : ℚ) • (1 : Matrix (Fin 4) (Fin 4) ℚ)
  F := kfF
  H := kfH
  R := R_std ^ 2 • (1 : Matrix (Fin 2) (Fin 2) ℚ)
  Q := kfQ (Q_std ^ 2)

/-- Modelled from the spec: `filterpy.kalman.KalmanFilter.predict` is not in
the repository source; section 4.1 gives mean := F * mean and
P := F * P * F^T + Q. -/
def KalmanFilter.predict (kf : KalmanFilter) : KalmanFilter :=
  { kf with x := kf.F * kf.x, P := kf.F * kf.P * kf.F.transpose + kf.Q }

/-- Explicit inverse of a 2x2 rational matrix (adjugate over determinant),
standing in for the linear-algebra primitive `numpy` supplies to the Kalman
update. When the determinant is 0 the source library raises a
degenerate-covariance error (spec section 4.1 notes the reference does not
guard this); here rational division by zero yields junk values instead, and
no claim depends on that case. -/
def inv2 (A : Matrix (Fin 2) (Fin 2) ℚ) : Matrix (Fin 2) (Fin 2) ℚ :=
  (A 0 0 * A 1 1 - A 0 1 * A 1 0)⁻¹ • !![A 1 1, -(A 0 1); -(A 1 0), A 0 0]

/-- Modelled from the spec: `filterpy.kalman.KalmanFilter.update` is not in
the repository source; section 4.1 gives the standard Kalman correction
(innovation, innovation covariance, gain, corrected mean and covariance).
The measurement model H maps the state to the observed (x, y), so only the
position dimensions of the measurement vector are consumed (spec section
4.2). -/
def KalmanFilter.update (kf : KalmanFilter) (z : Obs) : KalmanFilter :=
  let zc : Matrix (Fin 2) (Fin 1) ℚ := !![z.getD 0 0; z.getD 1 0]
  let y := zc - kf.H * kf.x
  let S := kf.H * kf.P * kf.H.transpose + kf.R
  let K := kf.P * kf.H.transpose * inv2 S
  { kf with x := kf.x + K * y, P := (1 - K * kf.H) * kf.P }

/-- The axis-aligned validity rectangle (`Bounds2D` in the source),
constructed as `Bounds2D(xmin, ymin, xmax, ymax)`. -/
structure Bounds2D where
  xmin : ℚ
  ymin : ℚ
  xmax : ℚ
  ymax : ℚ
deriving DecidableEq

/-- Source `Bounds2D.contains(x, y)`: the chained Python comparison
xmin <= x < xmax and ymin <= y < ymax (source line 128). -/
def Bounds2D.contains (b : Bounds2D) (x y : ℚ) : Prop :=
  b.xmin ≤ x ∧ x < b.xmax ∧ b.ymin ≤ y ∧ y < b.ymax

instance (b : Bounds2D) (x y : ℚ) : Decidable (b.contains x y) := by
  unfold Bounds2D.contains; infer_instance

/-- The mutable state of one `TrackedPoint` instance. `coast_length` is a
real number because it accumulates Euclidean norms. -/
structure TrackedPoint where
  id : ℕ
  x : ℚ
  y : ℚ
  vx : ℚ
  vy : ℚ
  boundary : Bounds2D
  lifetime : ℕ
  n_tail_points : ℕ
  n_coasts : ℕ
  max_n_coasts : ℕ
  coast_length : ℝ
  max_coast_length : ℝ
  kf : KalmanFilter
  obs_tail : List (ℚ × ℚ)
  kf_tail : List (ℚ × ℚ)

noncomputable instance : DecidableEq TrackedPoint := Classical.decEq _

/-- Source `TrackedPoint.__init__(state, sigma_Q, sigma_R)` with
state = (x, vx, y, vy) (source lines 132-158). -/
def TrackedPoint.init (state : Fin 4 → ℚ) (sigma_Q sigma_R : ℚ) :
    TrackedPoint where
  id := 0
  x := state 0
  y := state 2
  vx := state 1
  vy := state 3
  boundary := ⟨0, 0, 1000, 1000⟩
  lifetime := 0
  n_tail_points := 50
  n_coasts := 0
  max_n_coasts := 20
  coast_length := 0
  max_coast_length := 1000
  kf := point_2d_kalman_filter state sigma_Q sigma_R
  obs_tail := []
  kf_tail := []

namespace TrackedPoint

/-- Current filtered x position `kx()` (source line 214). -/
def kx (t : TrackedPoint) : ℚ := t.kf.x 0 0

/-- Current filtered x velocity `kvx()` (source line 217). -/
def kvx (t : TrackedPoint) : ℚ := t.kf.x 1 0

/-- Current filtered y position `ky()` (source line 220). -/
def ky (t : TrackedPoint) : ℚ := t.kf.x 2 0

/-- Current filtered y velocity `kvy()` (source line 223). -/
def kvy (t : TrackedPoint) : ℚ := t.kf.x 3 0

end TrackedPoint

/-- Append a point to a tail deque and, if the length now exceeds the
capacity `n`, pop the leftmost (oldest) entry — the FIFO policy used for
both `obs_tail` (source lines 175-178) and `kf_tail` (source lines
208-211). -/
def pushTail (n : ℕ) (q : List (ℚ × ℚ)) (p : ℚ × ℚ) : List (ℚ × ℚ) :=
  let q' := q ++ [p]
  if n < q'.length then q'.tail else q'

namespace TrackedPoint

/-- Source `update_tail()`: append the current filtered position to the filtered
FIFO with the eviction rule (source lines 208-211). -/
def update_tail (t : TrackedPoint) : TrackedPoint :=
  { t with kf_tail := pushTail t.n_tail_points t.kf_tail (t.kx, t.ky) }

/-- Source `step(z)`: one predict-correct cycle with observation vector `z`
(source lines 160-185). Lifetime and the observed position/FIFO are always
updated; the filter only advances when the observed position is inside the
boundary, otherwise the method returns early with the estimate frozen. -/
def step (t : TrackedPoint) (z : Obs) : TrackedPoint :=
  let zx := z.getD 0 0
  let zy := z.getD 1 0
  let t' := { t with
    lifetime := t.lifetime + 1
    x := zx
    y := zy
    obs_tail := pushTail t.n_tail_points t.obs_tail (zx, zy) }
  if t'.boundary.contains zx zy then
    ({ t' with kf := (t'.kf.predict).update z }).update_tail
  else
    t'

/-- Source `coast()`: predict only, append to the filtered FIFO, accumulate the
coast distance from the last observed position to
(kx + kvx, ky + kvy) computed after the predict, and bump the coast and
lifetime counters (source lines 187-193). -/
noncomputable def coast (t : TrackedPoint) : TrackedPoint :=
  let t' := ({ t with kf := t.kf.predict }).update_tail
  let nx := t'.kx + t'.kvx
  let ny := t'.ky + t'.kvy
  { t' with
    coast_length := t'.coast_length + vnorm (nx - t'.x) (ny - t'.y)
    n_coasts := t'.n_coasts + 1
    lifetime := t'.lifetime + 1 }

end TrackedPoint

/-- Euclidean distance from a candidate observation's first two components
to the track's current filtered position, as an extended real (the code
compares such distances against `np.inf`). -/
noncomputable def trackDist (t : TrackedPoint) (p : Obs) : EReal :=
  ((vnorm (p.getD 0 0 - t.kx) (p.getD 1 0 - t.ky) : ℝ) : EReal)

/-- The linear scan of `nearest_observation` (source lines 195-206):
`nearest` and `min_dist` are the running best candidate and distance,
starting from `None` and `np.inf`; a candidate replaces them only when
strictly closer. -/
noncomputable def nearestGo (t : TrackedPoint) :
    List Obs → Option Obs → EReal → Option Obs × EReal
  | [], nearest, min_dist => (nearest, min_dist)
  | p :: ps, nearest, min_dist =>
    if trackDist t p < min_dist then nearestGo t ps (some p) (trackDist t p)
    else nearestGo t ps nearest min_dist

/-- Source `nearest_observation(z_candidates)` (source lines 195-206). -/
noncomputable def TrackedPoint.nearest_observation (t : TrackedPoint)
    (z_candidates : List Obs) : Option Obs × EReal :=
  nearestGo t z_candidates none ⊤

namespace TrackedPoint

/-- Source `in_bounds()`: the last observed position lies within the boundary
(source lines 225-226). -/
def in_bounds (t : TrackedPoint) : Prop := t.boundary.contains t.x t.y

instance (t : TrackedPoint) : Decidable t.in_bounds := by
  unfold TrackedPoint.in_bounds
  infer_instance

/-- Source `coasted_too_long()`: the consecutive-coast counter strictly exceeds its
threshold (source lines 228-229). -/
def coasted_too_long (t : TrackedPoint) : Prop := t.max_n_coasts < t.n_coasts

/-- Source `coasted_too_far()`: the cumulative coast distance strictly exceeds its
threshold (source lines 231-232). -/
def coasted_too_far (t : TrackedPoint) : Prop :=
  t.max_coast_length < t.coast_length

/-- Source `is_valid()` (source lines 234-241). -/
def is_valid (t : TrackedPoint) : Prop :=
  t.in_bounds ∧ ¬t.coasted_too_long ∧ ¬t.coasted_too_far

end TrackedPoint

/-- The engine's treatment of a matched track: `track.step(nearest)`
followed by `track.n_coasts = 0` (source lines 94-96). -/
def stepReset (t : TrackedPoint) (z : Obs) : TrackedPoint :=
  { t.step z with n_coasts := 0 }

/-- Phase 1 of `match_tracks_to_observations` (source lines 89-98): visit
the tracks in list order; a track whose nearest remaining observation is
strictly closer than the threshold steps with it, that observation is
removed (`list.remove`: first equal element) from the pool seen by the
remaining tracks, and its coast counter is reset; otherwise the track
coasts. When `nearest_observation` returns no candidate its distance is
infinite, never below the threshold, so that track coasts. Returns the
updated tracks (in order) and the remaining observation pool. -/
noncomputable def matchingPhase (distance_threshold : ℚ) :
    List TrackedPoint → List Obs → List TrackedPoint × List Obs
  | [], observations => ([], observations)
  | track :: rest, observations =>
    match track.nearest_observation observations with
    | (some nearest, distance) =>
      if distance < ((distance_threshold : ℝ) : EReal) then
        let r := matchingPhase distance_threshold rest (observations.erase nearest)
        (stepReset track nearest :: r.1, r.2)
      else
        let r := matchingPhase distance_threshold rest observations
        (track.coast :: r.1, r.2)
    | (none, _) =>
      let r := matchingPhase distance_threshold rest observations
      (track.coast :: r.1, r.2)

/-- The condition under which a track removed during pruning is transferred
to the finished list (source line 106): lifetime strictly above the
`min_lifetime` parameter and coast counter strictly below the track's own
`max_n_coasts` attribute. -/
def finishedWorthy (min_lifetime : ℕ) (t : TrackedPoint) : Prop :=
  min_lifetime < t.lifetime ∧ t.n_coasts < t.max_n_coasts

instance (m : ℕ) (t : TrackedPoint) : Decidable (finishedWorthy m t) := by
  unfold finishedWorthy; infer_instance

open Classical in
/-- Phase 2 of `match_tracks_to_observations` (source lines 102-108),
modelling the Python `for t in tracked_objects` loop with CPython iterator
semantics: the iterator holds an index into the current list, a valid track
leaves the list unchanged, and an invalid one is appended to the finished
list when `finishedWorthy` and then removed in place (`list.remove`: first
equal element), which shifts the element after it under the already
advanced index so that element is never examined. -/
noncomputable def prunePhaseGo (min_lifetime : ℕ) (i : ℕ)
    (tracks finished : List TrackedPoint) :
    List TrackedPoint × List TrackedPoint :=
  if h : i < tracks.length then
    let t := tracks.get ⟨i, h⟩
    if t.is_valid then
      prunePhaseGo min_lifetime (i + 1) tracks finished
    else
      prunePhaseGo min_lifetime (i + 1) (tracks.erase t)
        (if finishedWorthy min_lifetime t then finished ++ [t] else finished)
  else
    (tracks, finished)
termination_by 2 * tracks.length - i
decreasing_by
  · omega
  · have := List.length_erase_of_mem (tracks.get_mem i h)
    omega

set_option linter.unusedVariables false in
/-- Source `match_tracks_to_observations` (source lines 56-117). The Python
function mutates `tracked_objects` and `observations` in place and returns
`finished_tracks`; here the final contents of all three are returned as a
triple (tracks, observations, finished). Phase 3 passes every remaining
observation to the `track_adder` callback and then clears the observation
list. The `max_n_coasts` parameter is accepted but, as in the source, never
read. -/
noncomputable def match_tracks_to_observations
    (tracked_objects : List TrackedPoint) (observations : List Obs)
    (track_adder : List TrackedPoint → Obs → List TrackedPoint)
    (distance_threshold : ℚ) (max_n_coasts : ℕ) (min_lifetime : ℕ) :
    List TrackedPoint × List Obs × List TrackedPoint :=
  let m := matchingPhase distance_threshold tracked_objects observations
  let p := prunePhaseGo min_lifetime 0 m.1 []
  let born := m.2.foldl track_adder p.1
  (born, ([] : List Obs), p.2)

/-- One frame of activity on a single track, for stating properties about
arbitrary sequences of `step` and `coast` calls. -/
inductive TrackOp where
  | step (z : Obs)
  | coast

/-- Run a sequence of `step`/`coast` calls on a track, oldest first. -/
noncomputable def runOps (t : TrackedPoint) : List TrackOp → TrackedPoint
  | [] => t
  | TrackOp.step z :: ops => runOps (t.step z) ops
  | TrackOp.coast :: ops => runOps t.coast ops

/-- Both tail FIFOs are within the configured capacity. -/
def tailsOk (t : TrackedPoint) : Prop :=
  t.obs_tail.length ≤ t.n_tail_points ∧ t.kf_tail.length ≤ t.n_tail_points

lemma pushTail_length_le {n : ℕ} {q : List (ℚ × ℚ)} (p : ℚ × ℚ)
    (h : q.length ≤ n) : (pushTail n q p).length ≤ n := by
  unfold pushTail
  dsimp only
  split
  · simpa using Nat.le_trans (Nat.le_of_eq (by simp)) h
  · rename_i hc
    simp only [List.length_append, List.length_cons, List.length_nil] at hc ⊢
    omega

lemma tailsOk_step (t : TrackedPoint) (z : Obs) (h : tailsOk t) :
    tailsOk (t.step z) := by
  obtain ⟨h1, h2⟩ := h
  unfold TrackedPoint.step TrackedPoint.update_tail
  dsimp only
  split
  · exact ⟨pushTail_length_le _ h1, pushTail_length_le _ h2⟩
  · exact ⟨pushTail_length_le _ h1, h2⟩

lemma tailsOk_coast (t : TrackedPoint) (h : tailsOk t) : tailsOk t.coast := by
  obtain ⟨h1, h2⟩ := h
  unfold TrackedPoint.coast TrackedPoint.update_tail
  exact ⟨h1, pushTail_length_le _ h2⟩

lemma tailsOk_runOps (t : TrackedPoint) (ops : List TrackOp)
    (h : tailsOk t) : tailsOk (runOps t ops) := by
  induction ops generalizing t with
  | nil => exact h
  | cons op ops ih =>
    cases op with
    | step z => exact ih _ (tailsOk_step t z h)
    | coast => exact ih _ (tailsOk_coast t h)

/-- C9: for any sequence of `step` and `coast` calls on a freshly
constructed track, neither the observed-position FIFO nor the
filtered-position FIFO ever holds more than the configured maximum tail
length entries. -/
theorem claim9_tail_buffers_bounded (state : Fin 4 → ℚ) (sQ sR : ℚ)
    (ops : List TrackOp) :
    (runOps (TrackedPoint.init state sQ sR) ops).obs_tail.length ≤
        (runOps (TrackedPoint.init state sQ sR) ops).n_tail_points ∧
      (runOps (TrackedPoint.init state sQ sR) ops).kf_tail.length ≤
        (runOps (TrackedPoint.init state sQ sR) ops).n_tail_points :=
  tailsOk_runOps _ ops (by constructor <;> simp [TrackedPoint.init])

/-- C7: `is_valid()` holds exactly when the last observed position is inside
the half-open boundary rectangle, the consecutive-coast counter does not
strictly exceed its threshold, and the cumulative coast distance does not
strictly exceed its threshold. -/
theorem claim7_is_valid_characterisation (t : TrackedPoint) :
    t.is_valid ↔
      (t.boundary.xmin ≤ t.x ∧ t.x < t.boundary.xmax ∧
        t.boundary.ymin ≤ t.y ∧ t.y < t.boundary.ymax) ∧
      t.n_coasts ≤ t.max_n_coasts ∧
      t.coast_length ≤ t.max_coast_length := by
  unfold TrackedPoint.is_valid TrackedPoint.in_bounds Bounds2D.contains
    TrackedPoint.coasted_too_long TrackedPoint.coasted_too_far
  rw [not_lt, not_lt]

/-- C10: a `step` whose observed position is outside the boundary freezes
the filter: mean/covariance, the filtered FIFO, the coast counter, the coast
distance and the stored velocity are unchanged; only the lifetime, the
stored observed position and the observed FIFO change. -/
theorem claim10_out_of_bounds_step_freezes (t : TrackedPoint) (z : Obs)
    (h : ¬ t.boundary.contains (z.getD 0 0) (z.getD 1 0)) :
    (t.step z).kf = t.kf ∧
      (t.step z).kf_tail = t.kf_tail ∧
      (t.step z).n_coasts = t.n_coasts ∧
      (t.step z).coast_length = t.coast_length ∧
      (t.step z).vx = t.vx ∧
      (t.step z).vy = t.vy ∧
      (t.step z).lifetime = t.lifetime + 1 ∧
      (t.step z).x = z.getD 0 0 ∧
      (t.step z).y = z.getD 1 0 ∧
      (t.step z).obs_tail =
        pushTail t.n_tail_points t.obs_tail (z.getD 0 0, z.getD 1 0) := by
  unfold TrackedPoint.step
  dsimp only
  rw [if_neg h]
  exact ⟨rfl, rfl, rfl, rfl, rfl, rfl, rfl, rfl, rfl, rfl⟩

lemma pushTail_of_lt {n : ℕ} {q : List (ℚ × ℚ)} (p : ℚ × ℚ)
    (h : q.length < n) : pushTail n q p = q ++ [p] := by
  unfold pushTail
  dsimp only
  rw [if_neg]
  simp only [List.length_append, List.length_cons, List.length_nil]
  omega

lemma pushTail_of_eq {n : ℕ} {q : List (ℚ × ℚ)} (p : ℚ × ℚ)
    (h : q.length = n) : pushTail n q p = (q ++ [p]).tail := by
  unfold pushTail
  dsimp only
  rw [if_pos]
  simp only [List.length_append, List.length_cons, List.length_nil]
  omega

/-- C5: the `step(z)` contract. Lifetime goes up by exactly 1; the observed
(z0, z1) is recorded and appended to the observed FIFO, evicting the oldest
entry exactly when the FIFO was at capacity; an out-of-boundary observation
freezes the filter for the frame; otherwise the filter does predict then
update with the measurement vector and the new filtered position joins the
filtered FIFO; and only the two position components of the measurement
vector influence the result. -/
theorem claim5_step_contract (t : TrackedPoint) (z : Obs) :
    (t.step z).lifetime = t.lifetime + 1 ∧
      (t.step z).x = z.getD 0 0 ∧
      (t.step z).y = z.getD 1 0 ∧
      (t.step z).obs_tail =
        pushTail t.n_tail_points t.obs_tail (z.getD 0 0, z.getD 1 0) ∧
      (t.obs_tail.length < t.n_tail_points →
        (t.step z).obs_tail = t.obs_tail ++ [(z.getD 0 0, z.getD 1 0)]) ∧
      (t.obs_tail.length = t.n_tail_points →
        (t.step z).obs_tail =
          (t.obs_tail ++ [(z.getD 0 0, z.getD 1 0)]).tail) ∧
      (¬ t.boundary.contains (z.getD 0 0) (z.getD 1 0) →
        (t.step z).kf = t.kf ∧ (t.step z).kf_tail = t.kf_tail) ∧
      (t.boundary.contains (z.getD 0 0) (z.getD 1 0) →
        (t.step z).kf = (t.kf.predict).update z ∧
          (t.step z).kf_tail = pushTail t.n_tail_points t.kf_tail
            (((t.kf.predict).update z).x 0 0,
              ((t.kf.predict).update z).x 2 0)) ∧
      (∀ (a b : ℚ) (r r' : List ℚ),
        t.step (a :: b :: r) = t.step (a :: b :: r')) := by
  refine ⟨?_, ?_, ?_, ?_, ?_, ?_, ?_, ?_, ?_⟩
  · unfold TrackedPoint.step TrackedPoint.update_tail
    dsimp only
    split <;> rfl
  · unfold TrackedPoint.step TrackedPoint.update_tail
    dsimp only
    split <;> rfl
  · unfold TrackedPoint.step TrackedPoint.update_tail
    dsimp only
    split <;> rfl
  · unfold TrackedPoint.step TrackedPoint.update_tail
    dsimp only
    split <;> rfl
  · intro h
    have h4 : (t.step z).obs_tail =
        pushTail t.n_tail_points t.obs_tail (z.getD 0 0, z.getD 1 0) := by
      unfold TrackedPoint.step TrackedPoint.update_tail
      dsimp only
      split <;> rfl
    rw [h4, pushTail_of_lt _ h]
  · intro h
    have h4 : (t.step z).obs_tail =
        pushTail t.n_tail_points t.obs_tail (z.getD 0 0, z.getD 1 0) := by
      unfold TrackedPoint.step TrackedPoint.update_tail
      dsimp only
      split <;> rfl
    rw [h4, pushTail_of_eq _ h]
  · intro h
    unfold TrackedPoint.step
    dsimp only
    rw [if_neg h]
    exact ⟨rfl, rfl⟩
  · intro h
    unfold TrackedPoint.step TrackedPoint.update_tail
    dsimp only
    rw [if_pos h]
    exact ⟨rfl, rfl⟩
  · intro a b r r'
    unfold TrackedPoint.step KalmanFilter.update TrackedPoint.update_tail
    simp only [List.getD_cons_zero, List.getD_cons_succ]

/-- Python `list.remove(x)` (here `List.erase`) removes one occurrence of a member:
the list is a permutation of the element consed onto the erased list.
Stated over any lawful boolean equality so it applies to both the
observation pool and the track list. -/
lemma perm_cons_erase' {α : Type _} [BEq α] [LawfulBEq α] {z : α} :
    ∀ {l : List α}, z ∈ l → l.Perm (z :: l.erase z) := by
  intro l
  induction l with
  | nil => intro h; cases h
  | cons a as ih =>
    intro h
    by_cases hz : a = z
    · subst hz
      rw [List.erase_cons_head]
    · rw [List.erase_cons_tail (by simpa using hz)]
      have h' : z ∈ as := by
        rcases List.mem_cons.mp h with rfl | h'
        · exact absurd rfl hz
        · exact h'
      exact ((ih h').cons a).trans (List.Perm.swap z a _)

lemma prunePhaseGo_stop (mlt i : ℕ) (tracks finished : List TrackedPoint)
    (h : ¬ i < tracks.length) :
    prunePhaseGo mlt i tracks finished = (tracks, finished) := by
  rw [prunePhaseGo.eq_def]
  rw [dif_neg h]

lemma prunePhaseGo_continue (mlt i : ℕ)
    (tracks finished : List TrackedPoint) (h : i < tracks.length)
    (hv : (tracks.get ⟨i, h⟩).is_valid) :
    prunePhaseGo mlt i tracks finished =
      prunePhaseGo mlt (i + 1) tracks finished := by
  rw [prunePhaseGo.eq_def]
  rw [dif_pos h]
  dsimp only
  rw [if_pos hv]

lemma prunePhaseGo_remove (mlt i : ℕ)
    (tracks finished : List TrackedPoint) (h : i < tracks.length)
    (hv : ¬ (tracks.get ⟨i, h⟩).is_valid) :
    prunePhaseGo mlt i tracks finished =
      prunePhaseGo mlt (i + 1) (tracks.erase (tracks.get ⟨i, h⟩))
        (if finishedWorthy mlt (tracks.get ⟨i, h⟩) then
          finished ++ [tracks.get ⟨i, h⟩] else finished) := by
  rw [prunePhaseGo.eq_def]
  rw [dif_pos h]
  dsimp only
  rw [if_neg hv]

/-- Full characterisation of the pruning loop: the incoming track list is a
permutation of the surviving list plus the removed tracks, the finished
output extends the accumulator with exactly the removed tracks passing
`finishedWorthy` (in removal order), and every removed track is invalid.
The fuel argument dominates the loop measure. -/
lemma prunePhaseGo_spec (mlt : ℕ) :
    ∀ (fuel i : ℕ) (tracks finished : List TrackedPoint),
      2 * tracks.length ≤ i + fuel →
      ∃ removed : List TrackedPoint,
        tracks.Perm ((prunePhaseGo mlt i tracks finished).1 ++ removed) ∧
        (prunePhaseGo mlt i tracks finished).2 =
          finished ++
            removed.filter (fun t => decide (finishedWorthy mlt t)) ∧
        ∀ t ∈ removed, ¬ t.is_valid := by
  intro fuel
  induction fuel with
  | zero =>
    intro i tracks finished hfuel
    have hstop : ¬ i < tracks.length := by omega
    rw [prunePhaseGo_stop mlt i tracks finished hstop]
    exact ⟨[], by simp, by simp, by simp⟩
  | succ fuel ih =>
    intro i tracks finished hfuel
    by_cases h : i < tracks.length
    · by_cases hv : (tracks.get ⟨i, h⟩).is_valid
      · rw [prunePhaseGo_continue mlt i tracks finished h hv]
        exact ih (i + 1) tracks finished (by omega)
      · rw [prunePhaseGo_remove mlt i tracks finished h hv]
        have hmem : tracks.get ⟨i, h⟩ ∈ tracks := tracks.get_mem i h
        have hlen : (tracks.erase (tracks.get ⟨i, h⟩)).length =
            tracks.length - 1 := List.length_erase_of_mem hmem
        obtain ⟨rem, hperm, hfin, hinv⟩ := ih (i + 1)
          (tracks.erase (tracks.get ⟨i, h⟩))
          (if finishedWorthy mlt (tracks.get ⟨i, h⟩) then
            finished ++ [tracks.get ⟨i, h⟩] else finished)
          (by omega)
        refine ⟨tracks.get ⟨i, h⟩ :: rem, ?_, ?_, ?_⟩
        · have p1 : tracks.Perm
              (tracks.get ⟨i, h⟩ ::
                tracks.erase (tracks.get ⟨i, h⟩)) := perm_cons_erase' hmem
          have p2 := hperm.cons (tracks.get ⟨i, h⟩)
          exact (p1.trans p2).trans List.perm_middle.symm
        · rw [hfin, List.filter_cons]
          by_cases hw : finishedWorthy mlt (tracks.get ⟨i, h⟩)
          · rw [if_pos hw, if_pos (by simpa using hw)]
            simp
          · rw [if_neg hw, if_neg (by simpa using hw)]
        · intro t ht
          rcases List.mem_cons.mp ht with rfl | ht'
          · exact hv
          · exact hinv t ht'
    · rw [prunePhaseGo_stop mlt i tracks finished h]
      exact ⟨[], by simp, by simp, by simp⟩

/-- The pruning loop as invoked by the engine, characterised. -/
lemma prunePhase_spec (mlt : ℕ) (tracks : List TrackedPoint) :
    ∃ removed : List TrackedPoint,
      tracks.Perm ((prunePhaseGo mlt 0 tracks []).1 ++ removed) ∧
      (prunePhaseGo mlt 0 tracks []).2 =
        removed.filter (fun t => decide (finishedWorthy mlt t)) ∧
      ∀ t ∈ removed, ¬ t.is_valid := by
  obtain ⟨rem, hperm, hfin, hinv⟩ :=
    prunePhaseGo_spec mlt (2 * tracks.length) 0 tracks [] (by omega)
  exact ⟨rem, hperm, by simpa using hfin, hinv⟩

/-- C1 (amended): for every engine call there is a list of tracks removed
during pruning — all invalid, and the post-matching active tracks are a
permutation of the survivors plus the removed — such that the returned
finished list consists exactly of the removed tracks whose lifetime
strictly exceeds the minimum-lifetime parameter and whose coast counter is
strictly below the track's own maximum-coasts attribute
(`finishedWorthy`); every other removed track is discarded. -/
theorem claim1_finished_tracks_characterisation
    (tracked_objects : List TrackedPoint) (observations : List Obs)
    (track_adder : List TrackedPoint → Obs → List TrackedPoint)
    (distance_threshold : ℚ) (max_n_coasts min_lifetime : ℕ) :
    ∃ removed : List TrackedPoint,
      (matchingPhase distance_threshold tracked_objects observations).1.Perm
        ((prunePhaseGo min_lifetime 0
          (matchingPhase distance_threshold tracked_objects
            observations).1 []).1 ++ removed) ∧
      (match_tracks_to_observations tracked_objects observations track_adder
          distance_threshold max_n_coasts min_lifetime).2.2 =
        removed.filter (fun t => decide (finishedWorthy min_lifetime t)) ∧
      ∀ t ∈ removed, ¬ t.is_valid := by
  obtain ⟨rem, hperm, hfin, hinv⟩ := prunePhase_spec min_lifetime
    (matchingPhase distance_threshold tracked_objects observations).1
  exact ⟨rem, hperm, hfin, hinv⟩

/-- C2 (amended): after pruning, every removed track is invalid and every
valid track survives with its multiplicity (the post-matching tracks are a
permutation of survivors plus removed); but because the loop removes
in-place while iterating, an invalid track can be skipped and survive, so
the survivors need not be exactly the valid tracks. -/
theorem claim2_pruning_characterisation
    (tracked_objects : List TrackedPoint) (observations : List Obs)
    (distance_threshold : ℚ) (min_lifetime : ℕ) :
    ∃ removed : List TrackedPoint,
      (matchingPhase distance_threshold tracked_objects observations).1.Perm
        ((prunePhaseGo min_lifetime 0
          (matchingPhase distance_threshold tracked_objects
            observations).1 []).1 ++ removed) ∧
      (∀ t ∈ removed, ¬ t.is_valid) ∧
      ∀ t : TrackedPoint, t.is_valid →
        ((prunePhaseGo min_lifetime 0
          (matchingPhase distance_threshold tracked_objects
            observations).1 []).1.count t =
          ((matchingPhase distance_threshold tracked_objects
            observations).1).count t) := by
  obtain ⟨rem, hperm, _, hinv⟩ := prunePhase_spec min_lifetime
    (matchingPhase distance_threshold tracked_objects observations).1
  refine ⟨rem, hperm, hinv, ?_⟩
  intro t hvalid
  have hcount := hperm.count_eq t
  rw [List.count_append] at hcount
  have hzero : rem.count t = 0 := by
    rw [List.count_eq_zero]
    intro hmem
    exact hinv t hmem hvalid
  omega

/-- Folding an append-one-track callback over the leftover observations
appends one new track per observation, in order. -/
lemma foldl_append_adder (mk : Obs → TrackedPoint) :
    ∀ (l : List Obs) (acc : List TrackedPoint),
      l.foldl (fun ts ob => ts ++ [mk ob]) acc = acc ++ l.map mk := by
  intro l
  induction l with
  | nil => intro acc; simp
  | cons a as ih =>
    intro acc
    rw [List.foldl_cons, ih (acc ++ [mk a])]
    simp

/-- C8: with a factory callback that appends one newly constructed track
per observation (the contract of spec section 6), every observation left in
the pool after matching is passed exactly once to the factory — the
returned active list is the pruned survivors followed by one new track per
leftover observation, in order — and the observation collection is empty
when the call returns. With an empty active-track input, every supplied
observation becomes a new track and no finished tracks are returned. -/
theorem claim8_birth_phase (tracked_objects : List TrackedPoint)
    (observations : List Obs) (mk : Obs → TrackedPoint)
    (distance_threshold : ℚ) (max_n_coasts min_lifetime : ℕ) :
    (match_tracks_to_observations tracked_objects observations
        (fun ts ob => ts ++ [mk ob]) distance_threshold max_n_coasts
        min_lifetime).2.1 = [] ∧
      (match_tracks_to_observations tracked_objects observations
          (fun ts ob => ts ++ [mk ob]) distance_threshold max_n_coasts
          min_lifetime).1 =
        (prunePhaseGo min_lifetime 0
          (matchingPhase distance_threshold tracked_objects
            observations).1 []).1 ++
          ((matchingPhase distance_threshold tracked_objects
            observations).2).map mk ∧
      match_tracks_to_observations [] observations
          (fun ts ob => ts ++ [mk ob]) distance_threshold max_n_coasts
          min_lifetime =
        (observations.map mk, [], []) := by
  refine ⟨rfl, ?_, ?_⟩
  · show ((matchingPhase distance_threshold tracked_objects
        observations).2).foldl (fun ts ob => ts ++ [mk ob])
        (prunePhaseGo min_lifetime 0
          (matchingPhase distance_threshold tracked_objects
            observations).1 []).1 = _
    rw [foldl_append_adder]
  · show (((matchingPhase distance_threshold [] observations).2).foldl
        (fun ts ob => ts ++ [mk ob])
        (prunePhaseGo min_lifetime 0
          (matchingPhase distance_threshold [] observations).1 []).1,
        ([] : List Obs),
        (prunePhaseGo min_lifetime 0
          (matchingPhase distance_threshold [] observations).1 []).2) = _
    have hm : matchingPhase distance_threshold [] observations =
        ([], observations) := rfl
    rw [hm]
    rw [prunePhaseGo_stop min_lifetime 0 [] [] (by simp)]
    rw [foldl_append_adder]
    simp

/-- Witness for C8: instantiation at one concrete observation, an empty
track list, and the default factory built from `TrackedPoint.init`. -/
theorem claim8_witness :
    (match_tracks_to_observations []
        [[7, 8]] (fun ts ob =>
          ts ++ [TrackedPoint.init ![ob.getD 0 0, 0, ob.getD 1 0, 0] 1 1])
        30 3 3).2.1 = [] ∧
      (match_tracks_to_observations [] [[7, 8]]
          (fun ts ob =>
            ts ++
              [TrackedPoint.init ![ob.getD 0 0, 0, ob.getD 1 0, 0] 1 1])
          30 3 3).1 =
        (prunePhaseGo 3 0 (matchingPhase 30 [] [[7, 8]]).1 []).1 ++
          ((matchingPhase 30 [] [[7, 8]]).2).map (fun ob =>
            TrackedPoint.init ![ob.getD 0 0, 0, ob.getD 1 0, 0] 1 1) ∧
      match_tracks_to_observations [] [[7, 8]]
          (fun ts ob =>
            ts ++
              [TrackedPoint.init ![ob.getD 0 0, 0, ob.getD 1 0, 0] 1 1])
          30 3 3 =
        (([([7, 8] : Obs)]).map (fun ob =>
          TrackedPoint.init ![ob.getD 0 0, 0, ob.getD 1 0, 0] 1 1),
          [], []) :=
  claim8_birth_phase [] [[7, 8]]
    (fun ob => TrackedPoint.init ![ob.getD 0 0, 0, ob.getD 1 0, 0] 1 1)
    30 3 3

/-- Under the constant-velocity transition matrix of the source, a predict
advances each position by its velocity and keeps the velocities. -/
lemma predict_mean (kf : KalmanFilter) (hF : kf.F = kfF) :
    (kf.predict).x 0 0 = kf.x 0 0 + kf.x 1 0 ∧
      (kf.predict).x 1 0 = kf.x 1 0 ∧
      (kf.predict).x 2 0 = kf.x 2 0 + kf.x 3 0 ∧
      (kf.predict).x 3 0 = kf.x 3 0 := by
  unfold KalmanFilter.predict
  dsimp only
  rw [hF]
  refine ⟨?_, ?_, ?_, ?_⟩ <;>
    · rw [Matrix.mul_apply, Fin.sum_univ_four]
      norm_num [kfF, Matrix.vecHead, Matrix.vecTail]

/-- The Euclidean norm of a displacement along the x axis only. -/
lemma vnorm_rat_of_nonneg (a : ℚ) (h : 0 ≤ a) : vnorm a 0 = (a : ℝ) := by
  unfold vnorm
  rw [show ((a : ℝ) ^ 2 + ((0 : ℚ) : ℝ) ^ 2) = (a : ℝ) ^ 2 by
    push_cast
    ring]
  exact Real.sqrt_sq (by exact_mod_cast h)

/-- Field-by-field effect of `coast()` directly from the definition: the
coast distance grows by the norm of the difference between
(kx + kvx, ky + kvy) — read off the post-predict state — and the last
observed position. -/
lemma coast_fields (t : TrackedPoint) :
    (t.coast).x = t.x ∧
      (t.coast).y = t.y ∧
      (t.coast).vx = t.vx ∧
      (t.coast).vy = t.vy ∧
      (t.coast).boundary = t.boundary ∧
      (t.coast).lifetime = t.lifetime + 1 ∧
      (t.coast).n_coasts = t.n_coasts + 1 ∧
      (t.coast).max_n_coasts = t.max_n_coasts ∧
      (t.coast).n_tail_points = t.n_tail_points ∧
      (t.coast).obs_tail = t.obs_tail ∧
      (t.coast).kf = t.kf.predict ∧
      (t.coast).max_coast_length = t.max_coast_length ∧
      (t.coast).kf_tail = pushTail t.n_tail_points t.kf_tail
        ((t.kf.predict).x 0 0, (t.kf.predict).x 2 0) ∧
      (t.coast).coast_length = t.coast_length +
        vnorm ((t.kf.predict).x 0 0 + (t.kf.predict).x 1 0 - t.x)
          ((t.kf.predict).x 2 0 + (t.kf.predict).x 3 0 - t.y) := by
  unfold TrackedPoint.coast TrackedPoint.update_tail TrackedPoint.kx
    TrackedPoint.kvx TrackedPoint.ky TrackedPoint.kvy
  dsimp only
  exact ⟨rfl, rfl, rfl, rfl, rfl, rfl, rfl, rfl, rfl, rfl, rfl, rfl, rfl,
    rfl⟩

/-- C4 (amended): `coast()` performs exactly one predict with no
correction, appends the new filtered position (the pre-coast filtered
position advanced by the filtered velocity) to the filtered FIFO, adds to
the cumulative coast distance the displacement from the last observed
position of the predicted position advanced by one FURTHER velocity step
(pre-coast filtered position plus twice the filtered velocity) — not of
the new predicted position itself — and increments the coast counter and
the lifetime. -/
theorem claim4_coast_contract (t : TrackedPoint) (hF : t.kf.F = kfF) :
    (t.coast).kf = t.kf.predict ∧
      (t.coast).kf_tail = pushTail t.n_tail_points t.kf_tail
        (t.kx + t.kvx, t.ky + t.kvy) ∧
      (t.coast).coast_length = t.coast_length +
        vnorm (t.kx + 2 * t.kvx - t.x) (t.ky + 2 * t.kvy - t.y) ∧
      (t.coast).n_coasts = t.n_coasts + 1 ∧
      (t.coast).lifetime = t.lifetime + 1 ∧
      (t.coast).x = t.x ∧
      (t.coast).y = t.y ∧
      (t.coast).obs_tail = t.obs_tail := by
  obtain ⟨e0, e1, e2, e3⟩ := predict_mean t.kf hF
  have hc := coast_fields t
  refine ⟨hc.2.2.2.2.2.2.2.2.2.2.1, ?_, ?_, hc.2.2.2.2.2.2.1,
    hc.2.2.2.2.2.1, hc.1, hc.2.1, hc.2.2.2.2.2.2.2.2.2.1⟩
  · rw [hc.2.2.2.2.2.2.2.2.2.2.2.2.1, e0, e2]
    rfl
  · rw [hc.2.2.2.2.2.2.2.2.2.2.2.2.2, e0, e1, e2, e3]
    have a1 : t.kf.x 0 0 + t.kf.x 1 0 + t.kf.x 1 0 - t.x =
        t.kx + 2 * t.kvx - t.x := by
      unfold TrackedPoint.kx TrackedPoint.kvx
      ring
    have a2 : t.kf.x 2 0 + t.kf.x 3 0 + t.kf.x 3 0 - t.y =
        t.ky + 2 * t.kvy - t.y := by
      unfold TrackedPoint.ky TrackedPoint.kvy
      ring
    rw [a1, a2]

/-- The concrete track for the C4 counterexample: observed position (1, 0),
filtered state (x, vx, y, vy) = (1, 1, 0, 0). -/
def coastSample : TrackedPoint := TrackedPoint.init ![1, 1, 0, 0] 1 1

/-- Counterexample to C4 as stated: after one `coast`, the accumulated
coast distance is 2 — the displacement from the last observed position
(1, 0) of (3, 0), one velocity step beyond the new predicted position —
whereas the displacement of the new predicted position (2, 0) itself from
the last observed position is 1. -/
theorem claim4_counterexample :
    (coastSample.coast).coast_length = 2 ∧
      coastSample.coast_length +
        vnorm ((coastSample.kf.predict).x 0 0 - coastSample.x)
          ((coastSample.kf.predict).x 2 0 - coastSample.y) = 1 ∧
      (2 : ℝ) ≠ 1 := by
  have e00 : (coastSample.kf.predict).x 0 0 = 2 := by
    rw [(predict_mean coastSample.kf rfl).1]
    norm_num [coastSample, TrackedPoint.init, point_2d_kalman_filter,
      Matrix.of_apply]
  have e10 : (coastSample.kf.predict).x 1 0 = 1 := by
    rw [(predict_mean coastSample.kf rfl).2.1]
    norm_num [coastSample, TrackedPoint.init, point_2d_kalman_filter,
      Matrix.of_apply]
  have e20 : (coastSample.kf.predict).x 2 0 = 0 := by
    rw [(predict_mean coastSample.kf rfl).2.2.1]
    norm_num [coastSample, TrackedPoint.init, point_2d_kalman_filter,
      Matrix.of_apply, Matrix.vecHead, Matrix.vecTail]
  have e30 : (coastSample.kf.predict).x 3 0 = 0 := by
    rw [(predict_mean coastSample.kf rfl).2.2.2]
    norm_num [coastSample, TrackedPoint.init, point_2d_kalman_filter,
      Matrix.of_apply, Matrix.vecHead, Matrix.vecTail]
  have hx : coastSample.x = 1 := rfl
  have hy : coastSample.y = 0 := rfl
  have hcl : coastSample.coast_length = 0 := rfl
  refine ⟨?_, ?_, by norm_num⟩
  · rw [(coast_fields coastSample).2.2.2.2.2.2.2.2.2.2.2.2.2]
    rw [e00, e10, e20, e30, hx, hy, hcl]
    rw [show (2 : ℚ) + 1 - 1 = 2 by norm_num,
      show (0 : ℚ) + 0 - 0 = 0 by norm_num]
    rw [vnorm_rat_of_nonneg 2 (by norm_num)]
    norm_num
  · rw [e00, e20, hx, hy, hcl]
    rw [show (2 : ℚ) - 1 = 1 by norm_num, show (0 : ℚ) - 0 = 0 by norm_num]
    rw [vnorm_rat_of_nonneg 1 (by norm_num)]
    norm_num

/-- Witness for C4 (amended): the contract applied to the concrete track,
the transition-matrix hypothesis discharged definitionally. -/
theorem claim4_witness :
    coastSample.kf.F = kfF ∧
      (coastSample.coast).n_coasts = coastSample.n_coasts + 1 ∧
      (coastSample.coast).coast_length = coastSample.coast_length +
        vnorm (coastSample.kx + 2 * coastSample.kvx - coastSample.x)
          (coastSample.ky + 2 * coastSample.kvy - coastSample.y) :=
  ⟨rfl, (claim4_coast_contract coastSample rfl).2.2.2.1,
    (claim4_coast_contract coastSample rfl).2.2.1⟩

/-- Out-of-bounds track (observed x = -5) aged to lifetime 10 with 5
consecutive coasts, for the C1 counterexample. -/
def c1Track : TrackedPoint :=
  { TrackedPoint.init ![-5, 0, 5, 0] 1 1 with lifetime := 10, n_coasts := 5 }

/-- Counterexample to C1 as stated: calling the engine with
`max_n_coasts = 3` on this single out-of-bounds track (no observations, so
it coasts to 6 consecutive coasts), the track is removed during pruning —
the active list comes back empty — yet it IS returned as finished although
its coast counter 6 is not strictly below the engine's maximum-coasts
parameter 3. The code compares against the track's own attribute (20), not
the engine parameter. -/
theorem claim1_counterexample :
    (match_tracks_to_observations [c1Track] [] (fun ts _ => ts)
        30 3 3).2.2 = [c1Track.coast] ∧
      (match_tracks_to_observations [c1Track] [] (fun ts _ => ts)
        30 3 3).1 = [] ∧
      (c1Track.coast).n_coasts = 6 ∧
      ¬ ((c1Track.coast).n_coasts < 3) ∧
      ¬ (c1Track.coast).is_valid := by
  have hinvalid : ¬ (c1Track.coast).is_valid := fun hv =>
    absurd hv.1 (by decide)
  have hmatch : matchingPhase 30 [c1Track] [] = ([c1Track.coast], []) := rfl
  have hprune : prunePhaseGo 3 0 [c1Track.coast] [] =
      ([], [c1Track.coast]) := by
    rw [prunePhaseGo_remove 3 0 [c1Track.coast] [] (by simp) hinvalid]
    simp only [List.get]
    rw [if_pos (by decide), List.erase_cons_head]
    rw [prunePhaseGo_stop 3 1 [] _ (by simp)]
    rfl
  refine ⟨?_, ?_, rfl, by decide, hinvalid⟩
  · show (prunePhaseGo 3 0 (matchingPhase 30 [c1Track] []).1 []).2 =
      [c1Track.coast]
    rw [hmatch, hprune]
  · show ((matchingPhase 30 [c1Track] []).2).foldl (fun ts _ => ts)
      (prunePhaseGo 3 0 (matchingPhase 30 [c1Track] []).1 []).1 = []
    rw [hmatch, hprune]
    rfl

/-- Out-of-bounds track (observed x = -5) for the C2 counterexample. -/
def c2TrackA : TrackedPoint := TrackedPoint.init ![-5, 0, 5, 0] 1 1

/-- Out-of-bounds track (observed x = -7) for the C2 counterexample. -/
def c2TrackB : TrackedPoint := TrackedPoint.init ![-7, 0, 5, 0] 1 1

/-- Counterexample to C2 as stated: with two consecutive invalid
(out-of-bounds) tracks and no observations, removing the first during
pruning shifts the second under the already advanced loop index, so the
second — still invalid — is never examined and survives the call in the
active collection. -/
theorem claim2_counterexample :
    (matchingPhase 30 [c2TrackA, c2TrackB] []).1 =
        [c2TrackA.coast, c2TrackB.coast] ∧
      (match_tracks_to_observations [c2TrackA, c2TrackB] []
        (fun ts _ => ts) 30 3 3).1 = [c2TrackB.coast] ∧
      ¬ (c2TrackB.coast).is_valid ∧
      ¬ (c2TrackA.coast).is_valid := by
  have hA : ¬ (c2TrackA.coast).is_valid := fun hv => absurd hv.1 (by decide)
  have hB : ¬ (c2TrackB.coast).is_valid := fun hv => absurd hv.1 (by decide)
  have hmatch : matchingPhase 30 [c2TrackA, c2TrackB] [] =
      ([c2TrackA.coast, c2TrackB.coast], []) := rfl
  have hprune : prunePhaseGo 3 0 [c2TrackA.coast, c2TrackB.coast] [] =
      ([c2TrackB.coast], []) := by
    rw [prunePhaseGo_remove 3 0 [c2TrackA.coast, c2TrackB.coast] []
      (by simp) hA]
    simp only [List.get]
    rw [if_neg (by decide), List.erase_cons_head]
    rw [prunePhaseGo_stop 3 1 [c2TrackB.coast] _ (by simp)]
  refine ⟨hmatch ▸ rfl, ?_, hB, hA⟩
  show ((matchingPhase 30 [c2TrackA, c2TrackB] []).2).foldl
    (fun ts _ => ts)
    (prunePhaseGo 3 0 (matchingPhase 30 [c2TrackA, c2TrackB] []).1 []).1 =
      [c2TrackB.coast]
  rw [hmatch, hprune]
  rfl

/-- A sample freshly constructed track used by concrete witnesses. -/
def sampleTrack : TrackedPoint := TrackedPoint.init ![0, 0, 0, 0] 1 1

/-- Witness for C10: a concrete out-of-bounds step on a fresh track. -/
theorem claim10_witness :
    ¬ sampleTrack.boundary.contains
        ((([2000, 5] : Obs)).getD 0 0) ((([2000, 5] : Obs)).getD 1 0) ∧
      (sampleTrack.step [2000, 5]).kf = sampleTrack.kf ∧
      (sampleTrack.step [2000, 5]).lifetime = sampleTrack.lifetime + 1 :=
  ⟨by decide,
    (claim10_out_of_bounds_step_freezes sampleTrack [2000, 5] (by decide)).1,
    (claim10_out_of_bounds_step_freezes sampleTrack [2000, 5]
      (by decide)).2.2.2.2.2.2.1⟩

/-- Witness for C7: a freshly constructed track at (0, 0) is valid, through
the characterisation. -/
theorem claim7_witness : sampleTrack.is_valid :=
  (claim7_is_valid_characterisation sampleTrack).mpr
    ⟨by decide, by decide, by
      show (0 : ℝ) ≤ (1000 : ℝ)
      norm_num⟩

/-- Witness for C1 (amended): instantiation at an engine call with no
tracks and no observations. -/
theorem claim1_witness :
    ∃ removed : List TrackedPoint,
      (matchingPhase 30 [] []).1.Perm
        ((prunePhaseGo 3 0 (matchingPhase 30 [] []).1 []).1 ++ removed) ∧
      (match_tracks_to_observations [] [] (fun ts _ => ts) 30 3 3).2.2 =
        removed.filter (fun t => decide (finishedWorthy 3 t)) ∧
      ∀ t ∈ removed, ¬ t.is_valid :=
  claim1_finished_tracks_characterisation [] [] (fun ts _ => ts) 30 3 3

/-- Witness for C2 (amended): instantiation at an engine call with no
tracks and no observations. -/
theorem claim2_witness :
    ∃ removed : List TrackedPoint,
      (matchingPhase 30 [] []).1.Perm
        ((prunePhaseGo 3 0 (matchingPhase 30 [] []).1 []).1 ++ removed) ∧
      (∀ t ∈ removed, ¬ t.is_valid) ∧
      ∀ t : TrackedPoint, t.is_valid →
        ((prunePhaseGo 3 0 (matchingPhase 30 [] []).1 []).1.count t =
          ((matchingPhase 30 [] []).1).count t) :=
  claim2_pruning_characterisation [] [] 30 3

lemma trackDist_lt_top (t : TrackedPoint) (p : Obs) : trackDist t p < ⊤ :=
  EReal.coe_lt_top _

/-- Full characterisation of the linear scan in `nearest_observation`:
either no candidate improves on the incoming best distance and the
accumulator is returned unchanged, or the result is the first candidate
attaining the minimum distance among those strictly below the incoming
best. -/
lemma nearestGo_spec (t : TrackedPoint) :
    ∀ (cands : List Obs) (acc : Option Obs) (m : EReal),
      (nearestGo t cands acc m = (acc, m) ∧
        ∀ p ∈ cands, ¬ trackDist t p < m) ∨
      (∃ i : Fin cands.length,
        nearestGo t cands acc m =
          (some (cands.get i), trackDist t (cands.get i)) ∧
        trackDist t (cands.get i) < m ∧
        (∀ j : Fin cands.length,
          ¬ trackDist t (cands.get j) < trackDist t (cands.get i)) ∧
        (∀ j : Fin cands.length, (j : ℕ) < (i : ℕ) →
          trackDist t (cands.get i) < trackDist t (cands.get j))) := by
  intro cands
  induction cands with
  | nil =>
    intro acc m
    left
    exact ⟨rfl, by simp⟩
  | cons p ps ih =>
    intro acc m
    by_cases hd : trackDist t p < m
    · have hrw : nearestGo t (p :: ps) acc m =
          nearestGo t ps (some p) (trackDist t p) := by
        simp only [nearestGo]
        rw [if_pos hd]
      rcases ih (some p) (trackDist t p) with ⟨heq, hall⟩ |
        ⟨i, heq, hlt, hmin, hstrict⟩
      · right
        refine ⟨⟨0, Nat.succ_pos _⟩, ?_, ?_, ?_, ?_⟩
        · rw [hrw, heq]
          simp
        · simpa using hd
        · intro j
          cases j using Fin.cases with
          | zero => simp [lt_irrefl]
          | succ k =>
            simpa using hall (ps.get k) (ps.get_mem _ _)
        · intro j hj
          exact absurd hj (Nat.not_lt_zero _)
      · right
        refine ⟨⟨(i : ℕ) + 1, Nat.succ_lt_succ i.isLt⟩, ?_, ?_, ?_, ?_⟩
        · rw [hrw, heq]
          simp
        · calc trackDist t ((p :: ps).get ⟨(i : ℕ) + 1, _⟩)
              = trackDist t (ps.get i) := by simp
            _ < trackDist t p := hlt
            _ < m := hd
        · intro j
          cases j using Fin.cases with
          | zero =>
            simpa using le_of_lt hlt
          | succ k =>
            simpa using hmin k
        · intro j hj
          cases j using Fin.cases with
          | zero =>
            simpa using hlt
          | succ k =>
            simp only [List.get_cons_succ]
            exact hstrict k (by simpa using hj)
    · have hrw : nearestGo t (p :: ps) acc m = nearestGo t ps acc m := by
        simp only [nearestGo]
        rw [if_neg hd]
      rcases ih acc m with ⟨heq, hall⟩ | ⟨i, heq, hlt, hmin, hstrict⟩
      · left
        refine ⟨hrw.trans heq, ?_⟩
        intro q hq
        rcases List.mem_cons.mp hq with rfl | hq'
        · exact hd
        · exact hall q hq'
      · right
        refine ⟨⟨(i : ℕ) + 1, Nat.succ_lt_succ i.isLt⟩, ?_, ?_, ?_, ?_⟩
        · rw [hrw, heq]
          simp
        · simpa using hlt
        · intro j
          cases j using Fin.cases with
          | zero =>
            simpa using le_of_lt (lt_of_lt_of_le hlt (not_lt.mp hd))
          | succ k =>
            simpa using hmin k
        · intro j hj
          cases j using Fin.cases with
          | zero =>
            simpa using lt_of_lt_of_le hlt (not_lt.mp hd)
          | succ k =>
            simp only [List.get_cons_succ]
            exact hstrict k (by simpa using hj)

/-- The candidate returned by the scan is the accumulator or one of the
candidates. -/
lemma nearestGo_mem (t : TrackedPoint) :
    ∀ (cands : List Obs) (acc : Option Obs) (m : EReal) (z : Obs)
      (d : EReal), nearestGo t cands acc m = (some z, d) →
      acc = some z ∨ z ∈ cands := by
  intro cands
  induction cands with
  | nil =>
    intro acc m z d h
    left
    exact congrArg Prod.fst h
  | cons p ps ih =>
    intro acc m z d h
    by_cases hd : trackDist t p < m
    · have hrw : nearestGo t (p :: ps) acc m =
          nearestGo t ps (some p) (trackDist t p) := by
        simp only [nearestGo]
        rw [if_pos hd]
      rcases ih (some p) (trackDist t p) z d (hrw.symm.trans h) with hacc | hm
      · right
        rw [List.mem_cons]
        left
        exact (Option.some.injEq _ _ ▸ hacc).symm
      · right
        exact List.mem_cons_of_mem _ hm
    · have hrw : nearestGo t (p :: ps) acc m = nearestGo t ps acc m := by
        simp only [nearestGo]
        rw [if_neg hd]
      rcases ih acc m z d (hrw.symm.trans h) with hacc | hm
      · left
        exact hacc
      · right
        exact List.mem_cons_of_mem _ hm

/-- C6: `nearest_observation` returns the candidate at minimum Euclidean
distance from the current filtered position together with that distance,
ties resolving to the earliest candidate; on an empty candidate list it
returns no match and an infinite distance. -/
theorem claim6_nearest_observation (t : TrackedPoint) (cands : List Obs) :
    (cands = [] ∧ t.nearest_observation cands = (none, ⊤)) ∨
      (∃ i : Fin cands.length,
        t.nearest_observation cands =
          (some (cands.get i), trackDist t (cands.get i)) ∧
        (∀ j : Fin cands.length,
          trackDist t (cands.get i) ≤ trackDist t (cands.get j)) ∧
        (∀ j : Fin cands.length, (j : ℕ) < (i : ℕ) →
          trackDist t (cands.get i) < trackDist t (cands.get j))) := by
  rcases nearestGo_spec t cands none ⊤ with ⟨heq, hall⟩ |
    ⟨i, heq, _, hmin, hstrict⟩
  · cases cands with
    | nil => exact Or.inl ⟨rfl, heq⟩
    | cons p ps =>
      exact absurd (trackDist_lt_top t p) (hall p (List.mem_cons_self p ps))
  · right
    exact ⟨i, heq, fun j => not_lt.mp (hmin j), hstrict⟩

lemma nearest_observation_mem (t : TrackedPoint) (obs : List Obs)
    (z : Obs) (d : EReal) (h : t.nearest_observation obs = (some z, d)) :
    z ∈ obs := by
  rcases nearestGo_mem t obs none ⊤ z d h with hacc | hm
  · exact absurd hacc (by simp)
  · exact hm

lemma matchingPhase_cons_some_lt (thr : ℚ) (track : TrackedPoint)
    (rest : List TrackedPoint) (obs : List Obs) (z : Obs) (d : EReal)
    (hn : track.nearest_observation obs = (some z, d))
    (hd : d < ((thr : ℝ) : EReal)) :
    matchingPhase thr (track :: rest) obs =
      (stepReset track z :: (matchingPhase thr rest (obs.erase z)).1,
        (matchingPhase thr rest (obs.erase z)).2) := by
  simp only [matchingPhase, hn]
  rw [if_pos hd]

lemma matchingPhase_cons_some_ge (thr : ℚ) (track : TrackedPoint)
    (rest : List TrackedPoint) (obs : List Obs) (z : Obs) (d : EReal)
    (hn : track.nearest_observation obs = (some z, d))
    (hd : ¬ d < ((thr : ℝ) : EReal)) :
    matchingPhase thr (track :: rest) obs =
      (track.coast :: (matchingPhase thr rest obs).1,
        (matchingPhase thr rest obs).2) := by
  simp only [matchingPhase, hn]
  rw [if_neg hd]

lemma matchingPhase_cons_none (thr : ℚ) (track : TrackedPoint)
    (rest : List TrackedPoint) (obs : List Obs) (d : EReal)
    (hn : track.nearest_observation obs = (none, d)) :
    matchingPhase thr (track :: rest) obs =
      (track.coast :: (matchingPhase thr rest obs).1,
        (matchingPhase thr rest obs).2) := by
  simp only [matchingPhase, hn]

/-- Conservation over the matching phase: the input observation pool is a
permutation of the output pool plus the consumed observations (so each
observation is consumed by at most one track), at most one observation is
consumed per track, and the track list keeps its length. -/
lemma matchingPhase_conservation (thr : ℚ) :
    ∀ (tracks : List TrackedPoint) (obs : List Obs),
      ∃ consumed : List Obs,
        obs.Perm ((matchingPhase thr tracks obs).2 ++ consumed) ∧
        consumed.length ≤ tracks.length ∧
        (matchingPhase thr tracks obs).1.length = tracks.length := by
  intro tracks
  induction tracks with
  | nil =>
    intro obs
    exact ⟨[], by simp [matchingPhase], by simp, by simp [matchingPhase]⟩
  | cons track rest ih =>
    intro obs
    rcases hn : track.nearest_observation obs with ⟨nr, d⟩
    cases nr with
    | some z =>
      by_cases hd : d < ((thr : ℝ) : EReal)
      · have hz : z ∈ obs := nearest_observation_mem track obs z d hn
        obtain ⟨c, hperm, hclen, htlen⟩ := ih (obs.erase z)
        have hrw := matchingPhase_cons_some_lt thr track rest obs z d hn hd
        refine ⟨z :: c, ?_, ?_, ?_⟩
        · rw [hrw]
          have p1 : obs.Perm (z :: obs.erase z) := perm_cons_erase' hz
          have p2 : (z :: obs.erase z).Perm
              (z :: ((matchingPhase thr rest (obs.erase z)).2 ++ c)) :=
            hperm.cons z
          have p3 : (z :: ((matchingPhase thr rest (obs.erase z)).2 ++
              c)).Perm ((matchingPhase thr rest (obs.erase z)).2 ++
                z :: c) := List.perm_middle.symm
          exact (p1.trans p2).trans p3
        · simp only [List.length_cons]
          omega
        · rw [hrw]
          simpa using htlen
      · obtain ⟨c, hperm, hclen, htlen⟩ := ih obs
        have hrw := matchingPhase_cons_some_ge thr track rest obs z d hn hd
        refine ⟨c, ?_, ?_, ?_⟩
        · rw [hrw]
          exact hperm
        · exact Nat.le_succ_of_le hclen
        · rw [hrw]
          simpa using htlen
    | none =>
      obtain ⟨c, hperm, hclen, htlen⟩ := ih obs
      have hrw := matchingPhase_cons_none thr track rest obs d hn
      refine ⟨c, ?_, ?_, ?_⟩
      · rw [hrw]
        exact hperm
      · exact Nat.le_succ_of_le hclen
      · rw [hrw]
        simpa using htlen

/-- The nearest observation, when it exists, is at distance `trackDist`
from the track. -/
lemma nearest_observation_snd (t : TrackedPoint) (obs : List Obs) (z : Obs)
    (d : EReal) (h : t.nearest_observation obs = (some z, d)) :
    d = trackDist t z := by
  have h' : nearestGo t obs none ⊤ = (some z, d) := h
  rcases nearestGo_spec t obs none ⊤ with ⟨heq, _⟩ | ⟨i, heq, _, _, _⟩
  · exact absurd (congrArg Prod.fst (heq.symm.trans h')) (by simp)
  · have e := heq.symm.trans h'
    have e1 : some (obs.get i) = some z := congrArg Prod.fst e
    have e2 : trackDist t (obs.get i) = d := congrArg Prod.snd e
    rw [← e2, Option.some.inj e1]

/-- C3: the matching phase visits the tracks in list order. For the first
track, either its nearest remaining observation is strictly closer than the
threshold — then the track is advanced by `step` with it, its coast counter
is reset to 0, and the observation is removed from the pool seen by the
remaining tracks — or (distance at or above the threshold, or no
observation at all) the track coasts and the pool is unchanged. The pool is
conserved: the input observations are a permutation of the output pool plus
the consumed observations, so each observation is consumed by at most one
track and an earlier track wins any contested observation. -/
theorem claim3_matching_phase (thr : ℚ) (track : TrackedPoint)
    (rest : List TrackedPoint) (obs : List Obs) :
    (∃ consumed : List Obs,
        obs.Perm ((matchingPhase thr (track :: rest) obs).2 ++ consumed) ∧
        consumed.length ≤ (track :: rest).length) ∧
      (matchingPhase thr (track :: rest) obs).1.length =
        (track :: rest).length ∧
      ((∃ z, track.nearest_observation obs = (some z, trackDist track z) ∧
          trackDist track z < ((thr : ℝ) : EReal) ∧
          (stepReset track z).n_coasts = 0 ∧
          matchingPhase thr (track :: rest) obs =
            (stepReset track z :: (matchingPhase thr rest (obs.erase z)).1,
              (matchingPhase thr rest (obs.erase z)).2)) ∨
        (¬ (track.nearest_observation obs).2 < ((thr : ℝ) : EReal) ∧
          matchingPhase thr (track :: rest) obs =
            (track.coast :: (matchingPhase thr rest obs).1,
              (matchingPhase thr rest obs).2))) := by
  obtain ⟨c, hperm, hclen, htlen⟩ :=
    matchingPhase_conservation thr (track :: rest) obs
  refine ⟨⟨c, hperm, hclen⟩, htlen, ?_⟩
  rcases hn : track.nearest_observation obs with ⟨nr, d⟩
  cases nr with
  | some z =>
    have hdz : d = trackDist track z := nearest_observation_snd _ _ _ _ hn
    subst hdz
    by_cases hd : trackDist track z < ((thr : ℝ) : EReal)
    · exact Or.inl ⟨z, rfl, hd, rfl,
        matchingPhase_cons_some_lt thr track rest obs z _ hn hd⟩
    · refine Or.inr ⟨?_, matchingPhase_cons_some_ge thr track rest obs z _
        hn hd⟩
      exact hd
  | none =>
    refine Or.inr ⟨?_, matchingPhase_cons_none thr track rest obs d hn⟩
    show ¬ d < ((thr : ℝ) : EReal)
    have hd' : d = ⊤ := by
      rcases nearestGo_spec track obs none ⊤ with ⟨heq, _⟩ |
        ⟨i, heq, _, _, _⟩
      · have h' : track.nearest_observation obs = (none, (⊤ : EReal)) := heq
        exact congrArg Prod.snd ((h'.symm.trans hn).symm)
      · have h' : track.nearest_observation obs =
            (some (obs.get i), trackDist track (obs.get i)) := heq
        exact absurd (congrArg Prod.fst (h'.symm.trans hn)) (by simp)
    rw [hd']
    exact not_top_lt

/-- Witness for C3: instantiation at a concrete track, one observation and
the default threshold. -/
theorem claim3_witness :
    (∃ consumed : List Obs,
        ([([1, 0] : Obs)]).Perm
          ((matchingPhase 30 [sampleTrack] [[1, 0]]).2 ++ consumed) ∧
        consumed.length ≤ ([sampleTrack]).length) ∧
      (matchingPhase 30 [sampleTrack] [[1, 0]]).1.length =
        ([sampleTrack]).length ∧
      ((∃ z, sampleTrack.nearest_observation [[1, 0]] =
            (some z, trackDist sampleTrack z) ∧
          trackDist sampleTrack z < ((30 : ℝ) : EReal) ∧
          (stepReset sampleTrack z).n_coasts = 0 ∧
          matchingPhase 30 [sampleTrack] [[1, 0]] =
            (stepReset sampleTrack z ::
                (matchingPhase 30 [] (([([1, 0] : Obs)]).erase z)).1,
              (matchingPhase 30 [] (([([1, 0] : Obs)]).erase z)).2)) ∨
        (¬ (sampleTrack.nearest_observation [[1, 0]]).2 <
            ((30 : ℝ) : EReal) ∧
          matchingPhase 30 [sampleTrack] [[1, 0]] =
            (sampleTrack.coast :: (matchingPhase 30 [] [[1, 0]]).1,
              (matchingPhase 30 [] [[1, 0]]).2))) :=
  claim3_matching_phase 30 sampleTrack [] [[1, 0]]

/-- Witness for C6: instantiation at a concrete track and candidate list. -/
theorem claim6_witness :
    (([([1, 0] : Obs)]) = [] ∧
        sampleTrack.nearest_observation [[1, 0]] = (none, ⊤)) ∨
      (∃ i : Fin ([([1, 0] : Obs)]).length,
        sampleTrack.nearest_observation [[1, 0]] =
          (some (([([1, 0] : Obs)]).get i),
            trackDist sampleTrack (([([1, 0] : Obs)]).get i)) ∧
        (∀ j : Fin ([([1, 0] : Obs)]).length,
          trackDist sampleTrack (([([1, 0] : Obs)]).get i) ≤
            trackDist sampleTrack (([([1, 0] : Obs)]).get j)) ∧
        (∀ j : Fin ([([1, 0] : Obs)]).length, (j : ℕ) < (i : ℕ) →
          trackDist sampleTrack (([([1, 0] : Obs)]).get i) <
            trackDist sampleTrack (([([1, 0] : Obs)]).get j))) :=
  claim6_nearest_observation sampleTrack [[1, 0]]

/-- Witness for C5: a concrete in-bounds step on a fresh track, with the
FIFO below capacity. -/
theorem claim5_witness :
    (sampleTrack.obs_tail.length < sampleTrack.n_tail_points ∧
        sampleTrack.boundary.contains
          ((([5, 6] : Obs)).getD 0 0) ((([5, 6] : Obs)).getD 1 0)) ∧
      (sampleTrack.step [5, 6]).obs_tail =
        sampleTrack.obs_tail ++
          [((([5, 6] : Obs)).getD 0 0, (([5, 6] : Obs)).getD 1 0)] ∧
      (sampleTrack.step [5, 6]).kf =
        (sampleTrack.kf.predict).update [5, 6] :=
  ⟨⟨by decide, by decide⟩,
    (claim5_step_contract sampleTrack [5, 6]).2.2.2.2.1 (by decide),
    ((claim5_step_contract sampleTrack [5, 6]).2.2.2.2.2.2.2.1
      (by decide)).1⟩

end KalmanTracker
